import Mathlib

/-!
Shallow embedding of the planning-poker server (`server.py`).

Python dictionaries are modelled as association lists with unique keys
maintained by the operations; Python sets of websocket connections are
modelled as duplicate-free lists (insertion guarded by membership), so
that the iteration order of a broadcast pass is explicit.  Mutable room
objects shared by reference between the registry (`self.rooms`) and the
per-connection handler coroutines are modelled by a heap of rooms indexed
by numeric references.
-/

set_option autoImplicit false

namespace PlanningPoker

/-! ## Association-list primitives (model of Python `dict`) -/

/-- Lookup of a key in an association list, first match wins
(Python `d.get(k)` / `d[k]`). -/
def alookup {α β : Type} [DecidableEq α] : List (α × β) → α → Option β
  | [], _ => none
  | p :: ps, k => if p.1 = k then some p.2 else alookup ps k

/-- Overwrite the value stored at a key, keeping its position
(the update half of Python `d[k] = v` when `k` is already present). -/
def aset {α β : Type} [DecidableEq α] : List (α × β) → α → β → List (α × β)
  | [], _, _ => []
  | p :: ps, k, v => (if p.1 = k then (p.1, v) else p) :: aset ps k v

/-- Remove every entry stored at a key (Python `d.pop(k, None)` on a
dict, which holds at most one entry per key). -/
def aerase {α β : Type} [DecidableEq α] : List (α × β) → α → List (α × β)
  | [], _ => []
  | p :: ps, k => if p.1 = k then aerase ps k else p :: aerase ps k

/-- Python `d[k] = v`: overwrite in place if the key is present,
append a fresh entry otherwise. -/
def adset {α β : Type} [DecidableEq α] (l : List (α × β)) (k : α) (v : β) :
    List (α × β) :=
  if (alookup l k).isSome then aset l k v else l ++ [(k, v)]

/-! ## Data model (`Room`, connections, payloads), from `server.py` -/

/-- A websocket connection (`web.WebSocketResponse`).  `id` is the
object identity; `clientId` is the `"client-id"` header assigned at
connect time (`ws.headers["client-id"] = user`, line 97). -/
structure Conn where
  id : Nat
  clientId : String
deriving DecidableEq, Repr

/-- The single outbound frame shape built in `send_room_state` and
`broadcast_room_state`: `{"type": tag, "votes": ..., "revealed": ...}`.
Vote values are `Option String` because `data.get("value")` may be
absent (`None`). -/
structure Payload where
  tag : String
  votes : List (String × Option String)
  revealed : Bool
deriving DecidableEq, Repr

/-- `Room` (lines 39-67): a set of connected clients, a dict of votes
keyed by user name, and the revealed flag. -/
structure Room where
  clients : List Conn
  votes : List (String × Option String)
  revealed : Bool
deriving DecidableEq, Repr

/-- `Room.__init__` (lines 48-51). -/
def Room.start : Room := ⟨[], [], false⟩

/-- `Room.add_client` (lines 53-54): `self.clients.add(ws)`. -/
def Room.add_client (r : Room) (c : Conn) : Room :=
  if c ∈ r.clients then r else { r with clients := r.clients ++ [c] }

/-- `Room.remove_client` (lines 56-62): discard the connection and pop
the vote entry whose key equals the connection's `client-id` header. -/
def Room.remove_client (r : Room) (c : Conn) : Room :=
  { r with clients := r.clients.filter (fun x => x ≠ c)
           votes := aerase r.votes c.clientId }

/-- `Room.reset` (lines 64-67): clear votes, hide them again. -/
def Room.reset (r : Room) : Room :=
  { r with votes := [], revealed := false }

/-- The `reveal` action (line 124): `room.revealed = True`. -/
def reveal (r : Room) : Room := { r with revealed := true }

/-- The `vote` action (lines 116-121): record `data.get("value")` under
the user's name, then drop the revealed flag if it was set. -/
def submitVote (r : Room) (user : String) (value : Option String) : Room :=
  let r1 := { r with votes := adset r.votes user value }
  if r1.revealed then { r1 with revealed := false } else r1

/-- The payload dict built at lines 141-145 and 153-157 from the room's
current votes and revealed flag. -/
def statePayload (r : Room) : Payload := ⟨"state", r.votes, r.revealed⟩

/-! ## Broadcast (lines 151-163)

`broadcast_room_state` builds the payload dict once and then iterates
over a snapshot `list(room.clients)`.  The payload's `"votes"` entry is
a live reference to `room.votes`, serialized at each send, so a
`remove_client` performed for an earlier failed delivery is visible to
later sends in the same pass; the `"revealed"` entry is a bool copied
when the payload dict was built.  A failed send removes that client
from the room and the loop continues. -/

/-- One broadcast pass over the remaining snapshot of clients.
`revealedAtStart` is the flag copied into the payload dict before the
loop; `f c = true` means `ws.send_json` raises for client `c`.  Returns
the room after the pass and the association of clients to the payload
each one actually received. -/
def broadcastGo (revealedAtStart : Bool) (f : Conn → Bool) :
    List Conn → Room → Room × List (Conn × Payload)
  | [], room => (room, [])
  | c :: rest, room =>
    if f c then broadcastGo revealedAtStart f rest (room.remove_client c)
    else
      let res := broadcastGo revealedAtStart f rest room
      (res.1, (c, ⟨"state", room.votes, revealedAtStart⟩) :: res.2)

/-- `PlanningPokerServer.broadcast_room_state` (lines 151-163). -/
def broadcast_room_state (r : Room) (f : Conn → Bool) :
    Room × List (Conn × Payload) :=
  broadcastGo r.revealed f r.clients r

/-! ## Inbound frames and per-message dispatch (lines 107-130) -/

/-- One inbound websocket frame, as seen by the dispatch loop:
`malformed` is a TEXT frame on which `json.loads` raises;
`nonObject` is a TEXT frame that parses to a non-dict JSON value (list,
string, number, bool, null), on which `data.get("type")` raises an
uncaught `AttributeError`; `obj action value` is a TEXT frame parsed to
a dict, carrying `data.get("type")` and `data.get("value")`;
`nonText` is a non-TEXT frame (e.g. `WSMsgType.ERROR`, which is only
printed). -/
inductive Msg where
  | malformed
  | nonObject
  | obj (action : Option String) (value : Option String)
  | nonText
deriving DecidableEq, Repr

/-- The body of the `async for msg in ws` loop (lines 107-130) for one
frame, given the connection's `user` and a delivery-failure oracle for
the broadcast.  `none` models an uncaught exception escaping the loop
(the `AttributeError` on a non-dict payload); otherwise the result is
the room after the action together with the frames delivered by the
triggered broadcast (empty when the frame is ignored). -/
def handle_message (user : String) (room : Room) (m : Msg)
    (f : Conn → Bool) : Option (Room × List (Conn × Payload)) :=
  match m with
  | .malformed => some (room, [])
  | .nonObject => none
  | .nonText => some (room, [])
  | .obj action value =>
    if action = some "vote" then
      some (broadcast_room_state (submitVote room user value) f)
    else if action = some "reveal" then
      some (broadcast_room_state (reveal room) f)
    else if action = some "reset" then
      some (broadcast_room_state room.reset f)
    else
      some (room, [])

/-! ## Whole-server state and transitions

`PlanningPokerServer.rooms` maps room identifiers to mutable `Room`
objects; each live `websocket_handler` coroutine holds a direct
reference to the `Room` object it joined.  The mutable objects are
modelled by a heap of rooms indexed by numeric references: the registry
maps room ids to references, and each handler records the reference it
obtained at join time (which can go stale relative to the registry,
exactly as a Python object reference can). -/

/-- One live `websocket_handler` coroutine: its connection, the
`roomId` query parameter, and the reference to the `Room` object it
obtained from `setdefault` at join time. -/
structure HState where
  conn : Conn
  roomId : String
  roomRef : Nat
deriving DecidableEq, Repr

/-- The whole server: the heap of `Room` objects, the `self.rooms`
registry, the live handler coroutines, and the next fresh heap
reference. -/
structure Sys where
  heap : List (Nat × Room)
  registry : List (String × Nat)
  handlers : List HState
  nextRef : Nat
deriving DecidableEq, Repr

/-- The server right after `PlanningPokerServer.__init__`. -/
def Sys.start : Sys := ⟨[], [], [], 0⟩

/-- Python truthiness test of lines 86-88: `not room_id or not user`
holds when the query parameter is absent or the empty string. -/
def missingParams (roomId user : Option String) : Bool :=
  roomId.getD "" = "" || user.getD "" = ""

/-- The HTTP response of line 89 when a query parameter is missing,
`none` when the websocket is established instead. -/
def connectResponse (roomId user : Option String) : Option (Nat × String) :=
  if missingParams roomId user then
    some (400, "Missing roomId or user in query params")
  else none

/-- Dereference a heap reference (a handler's or the registry's view of
a `Room` object). -/
def heapRoom (s : Sys) (ref : Nat) : Room :=
  (alookup s.heap ref).getD Room.start

/-- The room `self.rooms.setdefault(room_id, Room())` resolves to
(line 100): the registered room, or a fresh one. -/
def resolvedRoom (s : Sys) (rid : String) : Room :=
  match alookup s.registry rid with
  | some ref => heapRoom s ref
  | none => Room.start

/-- The `finally` block of `websocket_handler` (lines 131-136): remove
the connection from its room object; if that object now has no clients,
pop the handler's `room_id` from the registry; the coroutine ends. -/
def disconnectCleanup (s : Sys) (h : HState) : Sys :=
  let r' := (heapRoom s h.roomRef).remove_client h.conn
  { heap := aset s.heap h.roomRef r'
    registry :=
      if r'.clients = [] then aerase s.registry h.roomId else s.registry
    handlers := s.handlers.filter (fun h2 => h2.conn.id ≠ h.conn.id)
    nextRef := s.nextRef }

/-- An external stimulus: a connection attempt with its query
parameters, an inbound frame on a live connection (with the set of
connection ids whose broadcast delivery would fail), or a disconnect
(peer closed or transport error, both of which reach the `finally`
block). -/
inductive Event where
  | connect (roomId user : Option String) (connId : Nat)
  | message (connId : Nat) (m : Msg) (fails : List Nat)
  | disconnect (connId : Nat)
deriving DecidableEq, Repr

/-- The live handler for a connection id, if any. -/
def findHandler (hs : List HState) (connId : Nat) : Option HState :=
  hs.find? (fun h => h.conn.id = connId)

/-- One serialized step of the server: the new state and the frames
sent out (each paired with its receiving connection). -/
def step (s : Sys) (e : Event) : Sys × List (Conn × Payload) :=
  match e with
  | .connect roomId user connId =>
    if missingParams roomId user then (s, [])
    else
      let rid := roomId.getD ""
      let u := user.getD ""
      let c : Conn := ⟨connId, u⟩
      match alookup s.registry rid with
      | some ref =>
        let r := (heapRoom s ref).add_client c
        ({ s with
            heap := aset s.heap ref r
            handlers := s.handlers ++ [⟨c, rid, ref⟩] },
         [(c, statePayload r)])
      | none =>
        let ref := s.nextRef
        let r := Room.start.add_client c
        ({ heap := s.heap ++ [(ref, r)]
           registry := s.registry ++ [(rid, ref)]
           handlers := s.handlers ++ [⟨c, rid, ref⟩]
           nextRef := ref + 1 },
         [(c, statePayload r)])
  | .message connId m fails =>
    match findHandler s.handlers connId with
    | none => (s, [])
    | some h =>
      let r := heapRoom s h.roomRef
      match handle_message h.conn.clientId r m (fun c => fails.contains c.id) with
      | some (r', sent) =>
        ({ s with heap := aset s.heap h.roomRef r' }, sent)
      | none => (disconnectCleanup s h, [])
  | .disconnect connId =>
    match findHandler s.handlers connId with
    | none => (s, [])
    | some h => (disconnectCleanup s h, [])

/-- Sanity condition on an event: a fresh connection is a fresh
websocket object, so its id is not that of any live handler. -/
def eventOk (s : Sys) : Event → Bool
  | .connect _ _ connId => s.handlers.all (fun h => h.conn.id ≠ connId)
  | _ => true

/-- An event involves no broadcast delivery failure. -/
def failureFree : Event → Bool
  | .message _ _ fails => fails.isEmpty
  | _ => true

/-- Server states reachable from startup by any sequence of connection
attempts, inbound frames (with arbitrary delivery failures), and
disconnects. -/
inductive Reachable : Sys → Prop where
  | start : Reachable Sys.start
  | step (s : Sys) (e : Event) : Reachable s → eventOk s e = true →
      Reachable (step s e).1

/-- Server states reachable from startup when every broadcast delivery
succeeds. -/
inductive ReachableFF : Sys → Prop where
  | start : ReachableFF Sys.start
  | step (s : Sys) (e : Event) : ReachableFF s → eventOk s e = true →
      failureFree e = true → ReachableFF (step s e).1

/-- The C3 invariant: a room object is registered if and only if it has
at least one member. -/
def RegistryIff (s : Sys) : Prop :=
  (∀ rid ref, alookup s.registry rid = some ref →
    ∃ r, alookup s.heap ref = some r ∧ r.clients ≠ []) ∧
  (∀ ref r, alookup s.heap ref = some r → r.clients ≠ [] →
    ∃ rid, alookup s.registry rid = some ref)

/-! ## Claim statements and invariants -/

/-- The three `type` values the dispatch chain recognizes
(lines 114, 123, 126). -/
def recognizedAction : Option String → Bool
  | some "vote" => true
  | some "reveal" => true
  | some "reset" => true
  | _ => false

/-- A frame in the scope of claim C2: unparseable payload, or a parsed
payload whose `type` field is absent or unrecognized (a parsed non-dict
payload has no `type` field at all). -/
def badFrame : Msg → Bool
  | .malformed => true
  | .nonObject => true
  | .obj a _ => !recognizedAction a
  | .nonText => false

/-- The frames the dispatch loop actually drops silently: unparseable
payloads, dict payloads with absent/unrecognized `type`, and non-TEXT
frames. -/
def silentFrame : Msg → Bool
  | .malformed => true
  | .nonObject => false
  | .obj a _ => !recognizedAction a
  | .nonText => true

/-- Claim C2 as stated: every malformed or unknown-`type` frame is
silently ignored, with no state change, no reply and no broadcast. -/
def ClaimC2 : Prop :=
  ∀ (s : Sys) (cid : Nat) (m : Msg) (fails : List Nat),
    badFrame m = true → step s (.message cid m fails) = (s, [])

/-- Claim C3 as stated: at every reachable point (delivery failures
included) a room is registered iff it has at least one member. -/
def ClaimC3 : Prop := ∀ s : Sys, Reachable s → RegistryIff s

/-- Claim C7 as stated: every member the broadcast delivers to receives
the same payload, computed from the room state at the start of the
pass; non-failing members all receive it, and failing members are
evicted within the pass. -/
def ClaimC7 : Prop :=
  ∀ (r : Room) (f : Conn → Bool),
    (∀ p ∈ (broadcast_room_state r f).2, p.2 = statePayload r) ∧
    (broadcast_room_state r f).2.map Prod.fst =
      r.clients.filter (fun c => !f c) ∧
    (broadcast_room_state r f).1.clients =
      r.clients.filter (fun c => !f c)

/-- Inductive invariant of failure-free executions, strong enough to
carry the C3 room-lifecycle property through every step: heap keys
below `nextRef`; registered references point at nonempty rooms;
registration is injective; unregistered room objects are empty; every
live handler is a member of the room object it holds, which is the one
registered under its `roomId`; live handlers have distinct connection
ids. -/
def Inv (s : Sys) : Prop :=
  (∀ ref, s.nextRef ≤ ref → alookup s.heap ref = none) ∧
  (∀ rid ref, alookup s.registry rid = some ref → ref < s.nextRef) ∧
  (∀ rid ref, alookup s.registry rid = some ref →
    ∃ r, alookup s.heap ref = some r ∧ r.clients ≠ []) ∧
  (∀ rid rid' ref, alookup s.registry rid = some ref →
    alookup s.registry rid' = some ref → rid = rid') ∧
  (∀ ref r, alookup s.heap ref = some r →
    (∀ rid, ¬alookup s.registry rid = some ref) → r.clients = []) ∧
  (∀ h ∈ s.handlers, alookup s.registry h.roomId = some h.roomRef ∧
    ∃ r, alookup s.heap h.roomRef = some r ∧ h.conn ∈ r.clients) ∧
  s.handlers.Pairwise (fun a b => a.conn.id ≠ b.conn.id)

/-- The delivery oracle of a fully successful broadcast. -/
def noFail : Conn → Bool := fun _ => false

/-! ## Theorems -/

theorem alookup_aset_self {α β : Type} [DecidableEq α]
    (l : List (α × β)) (k : α) (v : β) :
    alookup (aset l k v) k = (alookup l k).map (fun _ => v) := by
  induction l with
  | nil => rfl
  | cons p ps ih =>
    by_cases hp : p.1 = k <;> simp [aset, alookup, hp, ih]

theorem alookup_aset_ne {α β : Type} [DecidableEq α]
    (l : List (α × β)) (k k' : α) (v : β) (h : k' ≠ k) :
    alookup (aset l k v) k' = alookup l k' := by
  induction l with
  | nil => rfl
  | cons p ps ih =>
    by_cases hp : p.1 = k
    · have hkk' : ¬k = k' := fun hc => h hc.symm
      simp [aset, alookup, hp, hkk', ih]
    · simp [aset, alookup, hp, ih]

theorem alookup_aerase_self {α β : Type} [DecidableEq α]
    (l : List (α × β)) (k : α) :
    alookup (aerase l k) k = none := by
  induction l with
  | nil => rfl
  | cons p ps ih =>
    by_cases hp : p.1 = k <;> simp [aerase, alookup, hp, ih]

theorem alookup_aerase_ne {α β : Type} [DecidableEq α]
    (l : List (α × β)) (k k' : α) (h : k' ≠ k) :
    alookup (aerase l k) k' = alookup l k' := by
  induction l with
  | nil => rfl
  | cons p ps ih =>
    by_cases hp : p.1 = k
    · have hkk' : ¬k = k' := fun hc => h hc.symm
      simp [aerase, alookup, hp, hkk', ih]
    · simp [aerase, alookup, hp, ih]

theorem alookup_append_of_none {α β : Type} [DecidableEq α]
    (l l' : List (α × β)) (k : α) (h : alookup l k = none) :
    alookup (l ++ l') k = alookup l' k := by
  induction l with
  | nil => rfl
  | cons p ps ih =>
    by_cases hp : p.1 = k <;> simp [alookup, hp] at h ⊢
    exact ih h

theorem alookup_append_of_some {α β : Type} [DecidableEq α]
    (l l' : List (α × β)) (k : α) (v : β) (h : alookup l k = some v) :
    alookup (l ++ l') k = some v := by
  induction l with
  | nil => simp [alookup] at h
  | cons p ps ih =>
    by_cases hp : p.1 = k <;> simp [alookup, hp] at h ⊢
    · exact h
    · exact ih h

theorem alookup_adset_self {α β : Type} [DecidableEq α]
    (l : List (α × β)) (k : α) (v : β) :
    alookup (adset l k v) k = some v := by
  unfold adset
  by_cases hs : (alookup l k).isSome
  · rcases Option.isSome_iff_exists.mp hs with ⟨w, hw⟩
    simp [hs, alookup_aset_self, hw]
  · have hn : alookup l k = none := Option.not_isSome_iff_eq_none.mp hs
    rw [if_neg hs, alookup_append_of_none l _ k hn]
    simp [alookup]

theorem alookup_adset_ne {α β : Type} [DecidableEq α]
    (l : List (α × β)) (k k' : α) (v : β) (h : k' ≠ k) :
    alookup (adset l k v) k' = alookup l k' := by
  unfold adset
  by_cases hs : (alookup l k).isSome
  · simp [hs, alookup_aset_ne l k k' v h]
  · rw [if_neg hs]
    cases hlk : alookup l k' with
    | some w => exact alookup_append_of_some l _ k' w hlk
    | none =>
      rw [alookup_append_of_none l _ k' hlk]
      simp [alookup, Ne.symm h]

theorem alookup_eq_none_of_not_mem {α β : Type} [DecidableEq α]
    (l : List (α × β)) (k : α) (h : ∀ p ∈ l, p.1 ≠ k) :
    alookup l k = none := by
  induction l with
  | nil => rfl
  | cons p ps ih =>
    have hp := h p (by simp)
    simp [alookup, hp]
    exact ih (fun q hq => h q (by simp [hq]))

theorem aset_eq_of_none {α β : Type} [DecidableEq α]
    (l : List (α × β)) (k : α) (v : β) (h : alookup l k = none) :
    aset l k v = l := by
  induction l with
  | nil => rfl
  | cons p ps ih =>
    by_cases hp : p.1 = k
    · simp [alookup, hp] at h
    · simp [alookup, hp] at h
      simp [aset, hp, ih h]

/-- Writing back the value already stored at a key is the identity when
the list has no duplicate keys (as a genuine Python dict never has). -/
theorem aset_self_of_nodup {α β : Type} [DecidableEq α]
    (l : List (α × β)) (k : α) (v : β)
    (hnd : (l.map Prod.fst).Nodup) (h : alookup l k = some v) :
    aset l k v = l := by
  induction l with
  | nil => rfl
  | cons p ps ih =>
    simp only [List.map_cons, List.nodup_cons] at hnd
    by_cases hp : p.1 = k
    · have hv : p.2 = v := by simpa [alookup, hp] using h
      have hnone : alookup ps k = none := by
        apply alookup_eq_none_of_not_mem
        intro q hq hqk
        apply hnd.1
        rw [hp, ← hqk]
        exact List.mem_map_of_mem Prod.fst hq
      rw [show aset (p :: ps) k v = (p.1, v) :: aset ps k v from by
            simp [aset, hp]]
      rw [← hv, Prod.mk.eta, aset_eq_of_none ps k p.2 hnone]
    · have h' : alookup ps k = some v := by simpa [alookup, hp] using h
      simp [aset, hp, ih hnd.2 h']

/-! ### Room operation lemmas -/

theorem statePayload_add_client (r : Room) (c : Conn) :
    statePayload (r.add_client c) = statePayload r := by
  unfold Room.add_client statePayload
  split <;> rfl

theorem mem_add_client_self (r : Room) (c : Conn) :
    c ∈ (r.add_client c).clients := by
  unfold Room.add_client
  split
  · assumption
  · simp

theorem mem_add_client_of_mem (r : Room) (c x : Conn) (hx : x ∈ r.clients) :
    x ∈ (r.add_client c).clients := by
  unfold Room.add_client
  split
  · exact hx
  · simp [hx]

theorem add_client_nonempty (r : Room) (c : Conn) :
    (r.add_client c).clients ≠ [] := by
  intro hc
  have := mem_add_client_self r c
  rw [hc] at this
  simp at this

theorem remove_client_not_mem (r : Room) (c : Conn) :
    c ∉ (r.remove_client c).clients := by
  unfold Room.remove_client
  simp

theorem mem_remove_client_of_ne (r : Room) (c x : Conn) (hx : x ∈ r.clients)
    (hne : x ≠ c) : x ∈ (r.remove_client c).clients := by
  unfold Room.remove_client
  simp [List.mem_filter, hx, hne]

theorem remove_client_votes_gone (r : Room) (c : Conn) :
    alookup (r.remove_client c).votes c.clientId = none :=
  alookup_aerase_self r.votes c.clientId

theorem submitVote_clients (r : Room) (u : String) (v : Option String) :
    (submitVote r u v).clients = r.clients := by
  cases hr : r.revealed <;> simp [submitVote, hr]

theorem submitVote_votes (r : Room) (u : String) (v : Option String) :
    alookup (submitVote r u v).votes u = some v := by
  cases hr : r.revealed <;> simp [submitVote, hr, alookup_adset_self]

theorem submitVote_revealed_false (r : Room) (u : String) (v : Option String)
    (h : r.revealed = true) : (submitVote r u v).revealed = false := by
  simp [submitVote, h]

/-! ### Claims about the room state machine -/

/-- C1: a vote submitted while the room is revealed forces
`revealed = false` on the resulting room state, records the submitted
value under the voter's name, and the triggered broadcast is computed
from exactly that resulting state. -/
theorem C1_vote_while_revealed (r : Room) (u : String) (v : Option String)
    (h : r.revealed = true) :
    (submitVote r u v).revealed = false ∧
    alookup (submitVote r u v).votes u = some v ∧
    ∀ f, handle_message u r (.obj (some "vote") v) f =
      some (broadcast_room_state (submitVote r u v) f) :=
  ⟨submitVote_revealed_false r u v h, submitVote_votes r u v,
   fun _ => rfl⟩

/-- Witness for C1: alice changes her vote to "8" in a revealed room. -/
theorem C1_witness :
    (submitVote ⟨[], [("alice", some "5")], true⟩ "alice" (some "8")).revealed
        = false ∧
    alookup (submitVote ⟨[], [("alice", some "5")], true⟩ "alice"
        (some "8")).votes "alice" = some (some "8") ∧
    handle_message "alice" ⟨[], [("alice", some "5")], true⟩
        (.obj (some "vote") (some "8")) noFail =
      some (broadcast_room_state
        (submitVote ⟨[], [("alice", some "5")], true⟩ "alice" (some "8"))
        noFail) := by
  have h := C1_vote_while_revealed ⟨[], [("alice", some "5")], true⟩
    "alice" (some "8") rfl
  exact ⟨h.1, h.2.1, h.2.2 noFail⟩

/-- C4: a connection attempt missing `roomId` or `user` (absent or
empty) is answered with status 400 and leaves the whole server state
untouched, sending nothing. -/
theorem C4_missing_params (s : Sys) (roomId user : Option String)
    (connId : Nat) (h : missingParams roomId user = true) :
    step s (.connect roomId user connId) = (s, []) ∧
    connectResponse roomId user =
      some (400, "Missing roomId or user in query params") := by
  constructor
  · simp [step, h]
  · simp [connectResponse, h]

/-- Witness for C4: a connect with no `user` parameter against a server
with one occupied room. -/
theorem C4_witness :
    step ⟨[(0, ⟨[⟨0, "alice"⟩], [], false⟩)], [("R1", 0)],
          [⟨⟨0, "alice"⟩, "R1", 0⟩], 1⟩ (.connect (some "R1") none 7) =
      (⟨[(0, ⟨[⟨0, "alice"⟩], [], false⟩)], [("R1", 0)],
        [⟨⟨0, "alice"⟩, "R1", 0⟩], 1⟩, []) ∧
    connectResponse (some "R1") none =
      some (400, "Missing roomId or user in query params") :=
  C4_missing_params _ (some "R1") none 7 (by decide)

/-- C8: `reveal` sets the flag unconditionally, leaves the votes
untouched, and is idempotent on the `(votes, revealed)` pair. -/
theorem C8_reveal_idempotent (r : Room) :
    (reveal r).revealed = true ∧ (reveal r).votes = r.votes ∧
    reveal (reveal r) = reveal r ∧
    ((reveal (reveal r)).votes, (reveal (reveal r)).revealed) =
      ((reveal r).votes, (reveal r).revealed) := by
  simp [reveal]

/-- C9: `reset` yields empty votes and a cleared flag from every prior
state, and doing it twice gives `({}, false)` both times. -/
theorem C9_reset_idempotent (r : Room) :
    ((r.reset).votes, (r.reset).revealed) = ([], false) ∧
    ((r.reset.reset).votes, (r.reset.reset).revealed) = ([], false) ∧
    r.reset.reset = r.reset := by
  simp [Room.reset]


/-! ### Broadcast lemmas -/

theorem broadcastGo_cons_pos (b : Bool) (f : Conn → Bool) (c : Conn)
    (l : List Conn) (room : Room) (h : f c = true) :
    broadcastGo b f (c :: l) room =
      broadcastGo b f l (room.remove_client c) := by
  simp [broadcastGo, h]

theorem broadcastGo_cons_neg (b : Bool) (f : Conn → Bool) (c : Conn)
    (l : List Conn) (room : Room) (h : f c = false) :
    broadcastGo b f (c :: l) room =
      ((broadcastGo b f l room).1,
       (c, ⟨"state", room.votes, b⟩) :: (broadcastGo b f l room).2) := by
  simp [broadcastGo, h]

theorem broadcastGo_clients (b : Bool) (f : Conn → Bool) (l : List Conn)
    (room : Room) :
    (broadcastGo b f l room).1.clients =
      room.clients.filter (fun x => !(f x && decide (x ∈ l))) := by
  induction l generalizing room with
  | nil => simp [broadcastGo]
  | cons c rest ih =>
    cases hc : f c
    · rw [broadcastGo_cons_neg b f c rest room hc]
      rw [show ((broadcastGo b f rest room).1,
          (c, (⟨"state", room.votes, b⟩ : Payload)) ::
            (broadcastGo b f rest room).2).1
          = (broadcastGo b f rest room).1 from rfl]
      rw [ih]
      apply List.filter_congr
      intro x _
      by_cases hxc : x = c
      · subst hxc; simp [hc]
      · simp [hxc]
    · rw [broadcastGo_cons_pos b f c rest room hc]
      rw [ih]
      unfold Room.remove_client
      rw [List.filter_filter]
      apply List.filter_congr
      intro x _
      by_cases hxc : x = c
      · subst hxc; simp [hc]
      · simp [hxc]

theorem broadcast_clients (r : Room) (f : Conn → Bool) :
    (broadcast_room_state r f).1.clients =
      r.clients.filter (fun c => !f c) := by
  unfold broadcast_room_state
  rw [broadcastGo_clients]
  apply List.filter_congr
  intro x hx
  simp [hx]

theorem broadcastGo_revealed (b : Bool) (f : Conn → Bool) (l : List Conn)
    (room : Room) :
    (broadcastGo b f l room).1.revealed = room.revealed := by
  induction l generalizing room with
  | nil => simp [broadcastGo]
  | cons c rest ih =>
    cases hc : f c
    · rw [broadcastGo_cons_neg b f c rest room hc]
      exact ih room
    · rw [broadcastGo_cons_pos b f c rest room hc]
      rw [ih]
      rfl

theorem broadcastGo_recipients (b : Bool) (f : Conn → Bool) (l : List Conn)
    (room : Room) :
    (broadcastGo b f l room).2.map Prod.fst = l.filter (fun c => !f c) := by
  induction l generalizing room with
  | nil => simp [broadcastGo]
  | cons c rest ih =>
    cases hc : f c
    · rw [broadcastGo_cons_neg b f c rest room hc]
      simp [hc, ih]
    · rw [broadcastGo_cons_pos b f c rest room hc]
      simp [hc, ih]

theorem broadcastGo_payload_fields (b : Bool) (f : Conn → Bool)
    (l : List Conn) (room : Room) :
    ∀ p ∈ (broadcastGo b f l room).2,
      p.2.tag = "state" ∧ p.2.revealed = b := by
  induction l generalizing room with
  | nil => simp [broadcastGo]
  | cons c rest ih =>
    intro p hp
    cases hc : f c
    · rw [broadcastGo_cons_neg b f c rest room hc] at hp
      simp only [List.mem_cons] at hp
      rcases hp with hp | hp
      · simp [hp]
      · exact ih room p hp
    · rw [broadcastGo_cons_pos b f c rest room hc] at hp
      exact ih _ p hp

theorem broadcastGo_nofail (b : Bool) (f : Conn → Bool) (l : List Conn)
    (room : Room) (hf : ∀ c ∈ l, f c = false) :
    broadcastGo b f l room =
      (room, l.map (fun c => (c, ⟨"state", room.votes, b⟩))) := by
  induction l with
  | nil => simp [broadcastGo]
  | cons c rest ih =>
    have hc : f c = false := hf c (by simp)
    rw [broadcastGo_cons_neg b f c rest room hc]
    rw [ih (fun x hx => hf x (by simp [hx]))]
    simp

theorem broadcastGo_votes_none (b : Bool) (f : Conn → Bool) (l : List Conn)
    (room : Room) (k : String) (h : alookup room.votes k = none) :
    alookup (broadcastGo b f l room).1.votes k = none := by
  induction l generalizing room with
  | nil => simpa [broadcastGo]
  | cons c rest ih =>
    cases hc : f c
    · rw [broadcastGo_cons_neg b f c rest room hc]
      exact ih room h
    · rw [broadcastGo_cons_pos b f c rest room hc]
      apply ih
      by_cases hk : k = c.clientId
      · rw [hk]
        exact alookup_aerase_self room.votes c.clientId
      · show alookup (aerase room.votes c.clientId) k = none
        rw [alookup_aerase_ne room.votes c.clientId k hk]
        exact h

theorem broadcastGo_evicted_vote (b : Bool) (f : Conn → Bool) (l : List Conn)
    (c : Conn) (hf : f c = true) :
    ∀ room, c ∈ l →
      alookup (broadcastGo b f l room).1.votes c.clientId = none := by
  induction l with
  | nil =>
    intro room hc
    simp at hc
  | cons c' rest ih =>
    intro room hc
    cases hc' : f c'
    · have hcc : c ≠ c' := by
        intro he
        rw [he, hc'] at hf
        cases hf
      have hm : c ∈ rest := by
        rcases List.mem_cons.mp hc with he | hm
        · exact absurd he hcc
        · exact hm
      rw [broadcastGo_cons_neg b f c' rest room hc']
      exact ih room hm
    · rw [broadcastGo_cons_pos b f c' rest room hc']
      rcases List.mem_cons.mp hc with he | hm
      · subst he
        exact broadcastGo_votes_none b f rest _ c.clientId
          (remove_client_votes_gone room c)
      · exact ih _ hm

/-! ### Claims about the broadcast pass -/

/-- C7 fails as stated: with clients iterated in the order bob, alice,
carol, a delivery failure to alice (whose vote is on record) makes the
broadcast deliver different payloads to bob and to carol, because the
eviction of alice removes her vote from the live dict referenced by the
payload. -/
theorem C7_counterexample : ¬ClaimC7 := by
  intro h
  have h1 := (h ⟨[⟨2, "bob"⟩, ⟨1, "alice"⟩, ⟨3, "carol"⟩],
                 [("alice", some "5")], false⟩ (fun c => c.id == 1)).1
  have h2 := h1 (⟨3, "carol"⟩, ⟨"state", [], false⟩) (by decide)
  exact absurd h2 (by decide)

/-- C7 amended: delivery is attempted for every member and reaches
exactly the non-failing ones, in snapshot order, regardless of earlier
failures; failing members are evicted within the same pass; every
delivered payload carries the tag "state" and the revealed flag
captured at the start of the pass; and when no delivery fails all
members receive the identical payload computed from the room's
`(votes, revealed)`. -/
theorem C7_broadcast_delivery (r : Room) (f : Conn → Bool) :
    (broadcast_room_state r f).2.map Prod.fst =
        r.clients.filter (fun c => !f c) ∧
    (broadcast_room_state r f).1.clients =
        r.clients.filter (fun c => !f c) ∧
    (broadcast_room_state r f).1.revealed = r.revealed ∧
    (∀ p ∈ (broadcast_room_state r f).2,
        p.2.tag = "state" ∧ p.2.revealed = r.revealed) ∧
    ((∀ c ∈ r.clients, f c = false) →
        ∀ p ∈ (broadcast_room_state r f).2, p.2 = statePayload r) := by
  refine ⟨broadcastGo_recipients r.revealed f r.clients r,
    broadcast_clients r f, broadcastGo_revealed r.revealed f r.clients r,
    broadcastGo_payload_fields r.revealed f r.clients r, ?_⟩
  intro hf p hp
  rw [broadcast_room_state, broadcastGo_nofail r.revealed f r.clients r hf]
    at hp
  simp only [List.mem_map] at hp
  rcases hp with ⟨c, _, hpc⟩
  rw [← hpc]
  rfl

/-- C10: a connection whose delivery fails during a broadcast is
removed from the room's membership and the vote entry keyed by its
user name is removed from the room's votes, exactly as on an explicit
disconnect. -/
theorem C10_failed_delivery_evicts (r : Room) (f : Conn → Bool) (c : Conn)
    (hc : c ∈ r.clients) (hf : f c = true) :
    c ∉ (broadcast_room_state r f).1.clients ∧
    alookup (broadcast_room_state r f).1.votes c.clientId = none := by
  constructor
  · rw [broadcast_clients]
    intro hmem
    have hfc := (List.mem_filter.mp hmem).2
    rw [hf] at hfc
    cases hfc
  · exact broadcastGo_evicted_vote r.revealed f r.clients c hf r hc

/-- Witness for C10: alice's delivery fails while she and bob are both
members with recorded votes. -/
theorem C10_witness :
    (⟨1, "alice"⟩ : Conn) ∉
      (broadcast_room_state
        ⟨[⟨1, "alice"⟩, ⟨2, "bob"⟩],
         [("alice", some "5"), ("bob", some "3")], true⟩
        (fun c => c.id == 1)).1.clients ∧
    alookup (broadcast_room_state
        ⟨[⟨1, "alice"⟩, ⟨2, "bob"⟩],
         [("alice", some "5"), ("bob", some "3")], true⟩
        (fun c => c.id == 1)).1.votes (⟨1, "alice"⟩ : Conn).clientId
      = none :=
  C10_failed_delivery_evicts _ _ _ (by decide) (by decide)

/-! ### Connection lifecycle lemmas and claims -/

theorem missingParams_false (rid u : String) (h1 : ¬rid = "")
    (h2 : ¬u = "") : missingParams (some rid) (some u) = false := by
  simp [missingParams, h1, h2]

/-- C5: a join with both parameters present resolves the room through
the registry, sends the room's current full state to the new connection
alone, and records the connection as a member of the registered room;
the first join to an unseen room id is sent the empty hidden state.
The two structural hypotheses say the server state is a sane Python
one: registered rooms are live objects and `nextRef` is fresh. -/
theorem C5_join_sends_state (s : Sys) (rid u : String) (cid : Nat)
    (h1 : ¬rid = "") (h2 : ¬u = "")
    (h3 : ∀ rid' ref, alookup s.registry rid' = some ref →
        (alookup s.heap ref).isSome = true)
    (h4 : alookup s.heap s.nextRef = none) :
    (step s (.connect (some rid) (some u) cid)).2 =
      [(⟨cid, u⟩, statePayload (resolvedRoom s rid))] ∧
    (∃ ref r,
      alookup (step s (.connect (some rid) (some u) cid)).1.registry rid
          = some ref ∧
      alookup (step s (.connect (some rid) (some u) cid)).1.heap ref
          = some r ∧ (⟨cid, u⟩ : Conn) ∈ r.clients) ∧
    (alookup s.registry rid = none →
      (step s (.connect (some rid) (some u) cid)).2 =
        [(⟨cid, u⟩, ⟨"state", [], false⟩)]) := by
  have hm := missingParams_false rid u h1 h2
  cases hreg : alookup s.registry rid with
  | some ref =>
    refine ⟨?_, ?_, ?_⟩
    · simp [step, hm, hreg, resolvedRoom, statePayload_add_client]
    · refine ⟨ref, (heapRoom s ref).add_client ⟨cid, u⟩, ?_, ?_,
        mem_add_client_self _ _⟩
      · simp [step, hm, hreg]
      · rcases Option.isSome_iff_exists.mp (h3 rid ref hreg) with ⟨r0, hr0⟩
        simp [step, hm, hreg, alookup_aset_self, hr0]
    · intro hnone
      simp [hreg] at hnone
  | none =>
    refine ⟨?_, ?_, ?_⟩
    · simp [step, hm, hreg, resolvedRoom, statePayload_add_client]
    · refine ⟨s.nextRef, Room.start.add_client ⟨cid, u⟩, ?_, ?_,
        mem_add_client_self _ _⟩
      · simp only [step, hm, Bool.false_eq_true, if_false, hreg,
          Option.getD_some]
        rw [alookup_append_of_none s.registry _ rid hreg]
        simp [alookup]
      · simp only [step, hm, Bool.false_eq_true, if_false, hreg,
          Option.getD_some]
        rw [alookup_append_of_none s.heap _ s.nextRef h4]
        simp [alookup]
    · intro _
      simp [step, hm, hreg, statePayload_add_client]
      rfl

/-- Witness for C5: bob joins the already-registered room R1. -/
theorem C5_witness :
    (step ⟨[(0, ⟨[⟨0, "alice"⟩], [("alice", some "5")], false⟩)],
           [("R1", 0)], [⟨⟨0, "alice"⟩, "R1", 0⟩], 1⟩
        (.connect (some "R1") (some "bob") 5)).2 =
      [(⟨5, "bob"⟩,
        statePayload (resolvedRoom
          ⟨[(0, ⟨[⟨0, "alice"⟩], [("alice", some "5")], false⟩)],
           [("R1", 0)], [⟨⟨0, "alice"⟩, "R1", 0⟩], 1⟩ "R1"))] ∧
    (∃ ref r,
      alookup (step ⟨[(0, ⟨[⟨0, "alice"⟩], [("alice", some "5")], false⟩)],
           [("R1", 0)], [⟨⟨0, "alice"⟩, "R1", 0⟩], 1⟩
          (.connect (some "R1") (some "bob") 5)).1.registry "R1"
        = some ref ∧
      alookup (step ⟨[(0, ⟨[⟨0, "alice"⟩], [("alice", some "5")], false⟩)],
           [("R1", 0)], [⟨⟨0, "alice"⟩, "R1", 0⟩], 1⟩
          (.connect (some "R1") (some "bob") 5)).1.heap ref
        = some r ∧ (⟨5, "bob"⟩ : Conn) ∈ r.clients) ∧
    (alookup ([("R1", 0)] : List (String × Nat)) "R1" = none →
      (step ⟨[(0, ⟨[⟨0, "alice"⟩], [("alice", some "5")], false⟩)],
           [("R1", 0)], [⟨⟨0, "alice"⟩, "R1", 0⟩], 1⟩
          (.connect (some "R1") (some "bob") 5)).2 =
        [(⟨5, "bob"⟩, ⟨"state", [], false⟩)]) :=
  C5_join_sends_state _ "R1" "bob" 5 (by decide) (by decide)
    (by
      intro rid' ref hl
      simp only [alookup] at hl
      split at hl
      · cases hl
        decide
      · cases hl)
    (by decide)

/-- C6: on disconnect the connection is removed from its room's member
set, the vote entry keyed by its user name is removed, and the handler
coroutine ends, so later broadcasts cannot reference either. -/
theorem C6_disconnect_removes (s : Sys) (cid : Nat) (h : HState)
    (hf : findHandler s.handlers cid = some h) :
    h.conn ∉ (heapRoom (step s (.disconnect cid)).1 h.roomRef).clients ∧
    alookup (heapRoom (step s (.disconnect cid)).1 h.roomRef).votes
      h.conn.clientId = none ∧
    findHandler (step s (.disconnect cid)).1.handlers cid = none := by
  have hid : h.conn.id = cid := by
    have := List.find?_some hf
    simpa [findHandler] using this
  have hstep : step s (.disconnect cid) = (disconnectCleanup s h, []) := by
    simp only [step]
    rw [hf]
  rw [hstep]
  have hheap : heapRoom (disconnectCleanup s h) h.roomRef =
      (heapRoom s h.roomRef).remove_client h.conn := by
    unfold disconnectCleanup heapRoom
    simp only
    rw [alookup_aset_self]
    cases hx : alookup s.heap h.roomRef with
    | none =>
      simp [hx]
      unfold Room.remove_client Room.start
      simp [aerase]
    | some r0 => simp [hx]
  refine ⟨?_, ?_, ?_⟩
  · rw [hheap]
    exact remove_client_not_mem _ _
  · rw [hheap]
    exact remove_client_votes_gone _ _
  · apply List.find?_eq_none.mpr
    intro x hx
    have hmem : x ∈ s.handlers.filter (fun h2 => h2.conn.id ≠ h.conn.id) := hx
    have hne : x.conn.id ≠ h.conn.id := by
      simpa using (List.mem_filter.mp hmem).2
    rw [hid] at hne
    simpa using hne

/-- Witness for C6: alice disconnects from a room she shares with bob,
where both have votes on record. -/
theorem C6_witness :
    (⟨⟨0, "alice"⟩, "R1", 0⟩ : HState).conn ∉
      (heapRoom (step ⟨[(0, ⟨[⟨0, "alice"⟩, ⟨1, "bob"⟩],
          [("alice", some "5"), ("bob", some "3")], true⟩)],
          [("R1", 0)],
          [⟨⟨0, "alice"⟩, "R1", 0⟩, ⟨⟨1, "bob"⟩, "R1", 0⟩], 1⟩
        (.disconnect 0)).1 0).clients ∧
    alookup (heapRoom (step ⟨[(0, ⟨[⟨0, "alice"⟩, ⟨1, "bob"⟩],
          [("alice", some "5"), ("bob", some "3")], true⟩)],
          [("R1", 0)],
          [⟨⟨0, "alice"⟩, "R1", 0⟩, ⟨⟨1, "bob"⟩, "R1", 0⟩], 1⟩
        (.disconnect 0)).1 0).votes
      (⟨⟨0, "alice"⟩, "R1", 0⟩ : HState).conn.clientId = none ∧
    findHandler (step ⟨[(0, ⟨[⟨0, "alice"⟩, ⟨1, "bob"⟩],
          [("alice", some "5"), ("bob", some "3")], true⟩)],
          [("R1", 0)],
          [⟨⟨0, "alice"⟩, "R1", 0⟩, ⟨⟨1, "bob"⟩, "R1", 0⟩], 1⟩
        (.disconnect 0)).1.handlers 0 = none :=
  C6_disconnect_removes _ 0 _ (by decide)

/-! ### Claims about frame handling (C2) -/

theorem aset_heapRoom_self (s : Sys) (ref : Nat)
    (hnd : (s.heap.map Prod.fst).Nodup) :
    aset s.heap ref (heapRoom s ref) = s.heap := by
  cases hx : alookup s.heap ref with
  | none =>
    unfold heapRoom
    rw [hx]
    exact aset_eq_of_none _ _ _ hx
  | some r0 =>
    unfold heapRoom
    rw [hx]
    exact aset_self_of_nodup _ _ _ hnd hx

/-- C2 fails as stated: a TEXT frame whose payload parses to a non-dict
JSON value (so its `type` field is absent) is not silently ignored —
`data.get("type")` raises an uncaught `AttributeError`, the connection
is torn down, and the room state changes (alice's membership and the
room itself are reclaimed). -/
theorem C2_counterexample : ¬ClaimC2 := by
  intro h
  have h2 := h ⟨[(0, ⟨[⟨0, "alice"⟩], [], false⟩)], [("R1", 0)],
                [⟨⟨0, "alice"⟩, "R1", 0⟩], 1⟩ 0 .nonObject [] (by decide)
  exact absurd h2 (by decide)

/-- C2 amended: unparseable TEXT frames, non-TEXT frames, and dict
frames whose `type` is absent or unrecognized are silently ignored —
no reply, no broadcast, and the whole server state (rooms, votes,
revealed flags, members, live handlers) is unchanged.  The hypothesis
states the Python-dict sanity of the heap (no duplicate keys). -/
theorem C2_silent_frames_ignored (s : Sys) (cid : Nat) (m : Msg)
    (fails : List Nat) (hnd : (s.heap.map Prod.fst).Nodup)
    (hm : silentFrame m = true) :
    step s (.message cid m fails) = (s, []) := by
  cases hh : findHandler s.handlers cid with
  | none =>
    simp only [step]
    rw [hh]
  | some h =>
    have hmsg : handle_message h.conn.clientId (heapRoom s h.roomRef) m
        (fun c => fails.contains c.id) =
          some (heapRoom s h.roomRef, []) := by
      cases m with
      | malformed => rfl
      | nonText => rfl
      | nonObject => simp [silentFrame] at hm
      | obj a v =>
        have ha : recognizedAction a = false := by
          simpa [silentFrame] using hm
        have g1 : ¬a = some "vote" := fun hc => by
          rw [hc] at ha
          simp [recognizedAction] at ha
        have g2 : ¬a = some "reveal" := fun hc => by
          rw [hc] at ha
          simp [recognizedAction] at ha
        have g3 : ¬a = some "reset" := fun hc => by
          rw [hc] at ha
          simp [recognizedAction] at ha
        simp [handle_message, g1, g2, g3]
    have hh' : step s (.message cid m fails) =
        ({ s with heap := aset s.heap h.roomRef (heapRoom s h.roomRef) },
         []) := by
      simp only [step]
      rw [hh]
      dsimp only
      rw [hmsg]
    rw [hh', aset_heapRoom_self s h.roomRef hnd]

/-- Witness for C2: a dict frame with the unrecognized type "status"
reaches alice's handler and changes nothing. -/
theorem C2_witness :
    step ⟨[(0, ⟨[⟨0, "alice"⟩], [("alice", some "5")], true⟩)],
          [("R1", 0)], [⟨⟨0, "alice"⟩, "R1", 0⟩], 1⟩
        (.message 0 (.obj (some "status") (some "5")) []) =
      (⟨[(0, ⟨[⟨0, "alice"⟩], [("alice", some "5")], true⟩)],
        [("R1", 0)], [⟨⟨0, "alice"⟩, "R1", 0⟩], 1⟩, []) :=
  C2_silent_frames_ignored _ 0 _ [] (by decide) (by decide)

/-! ### Room lifecycle (C3): the claim as stated fails -/

/-- C3 fails as stated: starting from an empty server, alice joins room
R1 and then votes while her own delivery fails.  The broadcast evicts
her from the room object, but `broadcast_room_state` never touches the
registry, so the reachable state that results still registers R1 while
the room object has no members — the room dangles until alice's handler
coroutine happens to finish. -/
theorem C3_counterexample : ¬ClaimC3 := by
  intro h
  have r1 : Reachable (step Sys.start
      (.connect (some "R1") (some "alice") 0)).1 :=
    Reachable.step Sys.start _ Reachable.start (by decide)
  have r2 : Reachable (step (step Sys.start
      (.connect (some "R1") (some "alice") 0)).1
      (.message 0 (.obj (some "vote") (some "5")) [0])).1 :=
    Reachable.step _ _ r1 (by decide)
  have h2 := (h _ r2).1 "R1" 0 (by decide)
  rcases h2 with ⟨r, hr, hne⟩
  have hx : alookup (step (step Sys.start
      (.connect (some "R1") (some "alice") 0)).1
      (.message 0 (.obj (some "vote") (some "5")) [0])).1.heap 0 =
      some ⟨[], [], false⟩ := by decide
  rw [hx] at hr
  have hre : r = ⟨[], [], false⟩ := (Option.some.inj hr).symm
  exact hne (by rw [hre])

/-! ### The failure-free invariant -/

theorem alookup_snoc {α β : Type} [DecidableEq α] (l : List (α × β))
    (k k' : α) (v : β) :
    alookup (l ++ [(k, v)]) k' =
      match alookup l k' with
      | some w => some w
      | none => if k = k' then some v else none := by
  cases hl : alookup l k' with
  | some w => rw [alookup_append_of_some l _ k' w hl]
  | none =>
    rw [alookup_append_of_none l _ k' hl]
    rfl

theorem filter_notg_eq (l : List Conn) (g : Conn → Bool)
    (hg : ∀ c, g c = false) : l.filter (fun c => !g c) = l := by
  induction l with
  | nil => rfl
  | cons c cs ih => simp [hg c, ih]

/-- A failure-free dispatch step never changes the membership of the
room it acts on. -/
theorem handle_clients_eq (u : String) (r : Room) (m : Msg)
    (g : Conn → Bool) (hg : ∀ c, g c = false) (r' : Room)
    (sent : List (Conn × Payload))
    (hmsg : handle_message u r m g = some (r', sent)) :
    r'.clients = r.clients := by
  cases m with
  | malformed =>
    cases hmsg
    rfl
  | nonText =>
    cases hmsg
    rfl
  | nonObject => cases hmsg
  | obj a v =>
    simp only [handle_message] at hmsg
    split_ifs at hmsg with g1 g2 g3
    · have he := Option.some.inj hmsg
      have h1 : r' = (broadcast_room_state (submitVote r u v) g).1 := by
        rw [he]
      rw [h1, broadcast_clients, submitVote_clients, filter_notg_eq _ _ hg]
    · have he := Option.some.inj hmsg
      have h1 : r' = (broadcast_room_state (reveal r) g).1 := by
        rw [he]
      rw [h1, broadcast_clients]
      exact filter_notg_eq _ _ hg
    · have he := Option.some.inj hmsg
      have h1 : r' = (broadcast_room_state r.reset g).1 := by
        rw [he]
      rw [h1, broadcast_clients]
      exact filter_notg_eq _ _ hg
    · cases hmsg
      rfl

theorem inv_start : Inv Sys.start := by
  refine ⟨?_, ?_, ?_, ?_, ?_, ?_, List.Pairwise.nil⟩ <;>
    intros <;> simp_all [Sys.start, alookup]

/-- The `finally` cleanup preserves the invariant, whatever made the
handler exit. -/
theorem inv_disconnectCleanup (s : Sys) (h : HState) (hInv : Inv s)
    (hmem : h ∈ s.handlers) : Inv (disconnectCleanup s h) := by
  obtain ⟨hFresh, hRegLt, hRegNE, hRegInj, hUnreg, hHand, hIds⟩ := hInv
  obtain ⟨hhreg, r0, hr0, hmemc⟩ := hHand h hmem
  have hRoom : heapRoom s h.roomRef = r0 := by
    unfold heapRoom
    rw [hr0]
    rfl
  have hheap : ∀ ref, alookup (disconnectCleanup s h).heap ref =
      if ref = h.roomRef
      then some ((heapRoom s h.roomRef).remove_client h.conn)
      else alookup s.heap ref := by
    intro ref
    show alookup (aset s.heap h.roomRef _) ref = _
    by_cases hrr : ref = h.roomRef
    · rw [hrr, alookup_aset_self, hr0]
      simp
    · rw [alookup_aset_ne _ _ _ _ hrr]
      simp [hrr]
  have hhand : ∀ h2, h2 ∈ (disconnectCleanup s h).handlers ↔
      h2 ∈ s.handlers ∧ h2.conn.id ≠ h.conn.id := by
    intro h2
    show h2 ∈ s.handlers.filter _ ↔ _
    rw [List.mem_filter]
    simp
  have hnext : (disconnectCleanup s h).nextRef = s.nextRef := rfl
  by_cases hempty : ((heapRoom s h.roomRef).remove_client h.conn).clients = []
  · -- the handler's room object is now empty: its roomId is popped
    have hreg : ∀ rid, alookup (disconnectCleanup s h).registry rid =
        if rid = h.roomId then none else alookup s.registry rid := by
      intro rid
      show alookup (if _ then aerase s.registry h.roomId else s.registry) rid
        = _
      rw [if_pos hempty]
      by_cases hrid : rid = h.roomId
      · rw [hrid, alookup_aerase_self]
        simp
      · rw [alookup_aerase_ne _ _ _ hrid]
        simp [hrid]
    refine ⟨?_, ?_, ?_, ?_, ?_, ?_, ?_⟩
    · -- fresh references stay unbound
      intro ref hge
      rw [hnext] at hge
      rw [hheap ref]
      by_cases hrr : ref = h.roomRef
      · rw [hrr] at hge
        rw [hFresh h.roomRef hge] at hr0
        cases hr0
      · rw [if_neg hrr]
        exact hFresh ref hge
    · -- registered references are below nextRef
      intro rid ref hl
      rw [hreg rid] at hl
      rw [hnext]
      by_cases hrid : rid = h.roomId
      · rw [if_pos hrid] at hl
        cases hl
      · rw [if_neg hrid] at hl
        exact hRegLt rid ref hl
    · -- registered rooms are nonempty
      intro rid ref hl
      rw [hreg rid] at hl
      by_cases hrid : rid = h.roomId
      · rw [if_pos hrid] at hl
        cases hl
      · rw [if_neg hrid] at hl
        have hrefne : ref ≠ h.roomRef := by
          intro he
          exact hrid (hRegInj rid h.roomId h.roomRef (he ▸ hl) hhreg)
        rw [hheap ref, if_neg hrefne]
        exact hRegNE rid ref hl
    · -- registration is injective
      intro rid rid' ref hl hl'
      rw [hreg rid] at hl
      rw [hreg rid'] at hl'
      by_cases hrid : rid = h.roomId
      · rw [if_pos hrid] at hl
        cases hl
      · by_cases hrid' : rid' = h.roomId
        · rw [if_pos hrid'] at hl'
          cases hl'
        · rw [if_neg hrid] at hl
          rw [if_neg hrid'] at hl'
          exact hRegInj rid rid' ref hl hl'
    · -- unregistered room objects are empty
      intro ref r'' hl hunreg
      rw [hheap ref] at hl
      by_cases hrr : ref = h.roomRef
      · rw [if_pos hrr] at hl
        rw [← Option.some.inj hl]
        exact hempty
      · rw [if_neg hrr] at hl
        apply hUnreg ref r'' hl
        intro rid hc
        by_cases hrid : rid = h.roomId
        · rw [hrid, hhreg] at hc
          exact hrr (Option.some.inj hc).symm
        · exact hunreg rid (by rw [hreg rid, if_neg hrid]; exact hc)
    · -- surviving handlers still hold their registered room
      intro h2 hmem2
      obtain ⟨hmem2s, hne2⟩ := (hhand h2).mp hmem2
      obtain ⟨hreg2, r2, hr2, hc2⟩ := hHand h2 hmem2s
      have hconnne : h2.conn ≠ h.conn := fun he => hne2 (by rw [he])
      by_cases hrr : h2.roomRef = h.roomRef
      · -- impossible: h2 would still be a member of the emptied room
        have hr2r0 : r2 = r0 := by
          rw [hrr] at hr2
          rw [hr2] at hr0
          exact Option.some.inj hr0
        have : h2.conn ∈ ((heapRoom s h.roomRef).remove_client
            h.conn).clients := by
          rw [hRoom]
          exact mem_remove_client_of_ne r0 h.conn h2.conn
            (hr2r0 ▸ hc2) hconnne
        rw [hempty] at this
        cases this
      · have hrid2 : h2.roomId ≠ h.roomId := by
          intro he
          apply hrr
          rw [he] at hreg2
          rw [hhreg] at hreg2
          exact (Option.some.inj hreg2).symm
        refine ⟨?_, r2, ?_, hc2⟩
        · rw [hreg h2.roomId, if_neg hrid2]
          exact hreg2
        · rw [hheap h2.roomRef, if_neg hrr]
          exact hr2
    · -- distinct connection ids survive filtering
      exact hIds.sublist (List.filter_sublist s.handlers)
  · -- the room object still has members: registry untouched
    have hreg : (disconnectCleanup s h).registry = s.registry := by
      show (if _ then aerase s.registry h.roomId else s.registry) = _
      rw [if_neg hempty]
    refine ⟨?_, ?_, ?_, ?_, ?_, ?_, ?_⟩
    · intro ref hge
      rw [hnext] at hge
      rw [hheap ref]
      by_cases hrr : ref = h.roomRef
      · rw [hrr] at hge
        rw [hFresh h.roomRef hge] at hr0
        cases hr0
      · rw [if_neg hrr]
        exact hFresh ref hge
    · intro rid ref hl
      rw [hreg] at hl
      rw [hnext]
      exact hRegLt rid ref hl
    · intro rid ref hl
      rw [hreg] at hl
      rw [hheap ref]
      by_cases hrr : ref = h.roomRef
      · rw [if_pos hrr]
        exact ⟨_, rfl, hempty⟩
      · rw [if_neg hrr]
        exact hRegNE rid ref hl
    · intro rid rid' ref hl hl'
      rw [hreg] at hl hl'
      exact hRegInj rid rid' ref hl hl'
    · intro ref r'' hl hunreg
      rw [hreg] at hunreg
      rw [hheap ref] at hl
      by_cases hrr : ref = h.roomRef
      · rw [hrr] at hunreg
        exact absurd hhreg (hunreg h.roomId)
      · rw [if_neg hrr] at hl
        exact hUnreg ref r'' hl hunreg
    · intro h2 hmem2
      obtain ⟨hmem2s, hne2⟩ := (hhand h2).mp hmem2
      obtain ⟨hreg2, r2, hr2, hc2⟩ := hHand h2 hmem2s
      have hconnne : h2.conn ≠ h.conn := fun he => hne2 (by rw [he])
      rw [hreg]
      refine ⟨hreg2, ?_⟩
      by_cases hrr : h2.roomRef = h.roomRef
      · have hr2r0 : r2 = r0 := by
          rw [hrr] at hr2
          rw [hr2] at hr0
          exact Option.some.inj hr0
        refine ⟨(heapRoom s h.roomRef).remove_client h.conn, ?_, ?_⟩
        · rw [hheap h2.roomRef, if_pos hrr]
        · rw [hRoom]
          exact mem_remove_client_of_ne r0 h.conn h2.conn
            (hr2r0 ▸ hc2) hconnne
      · refine ⟨r2, ?_, hc2⟩
        rw [hheap h2.roomRef, if_neg hrr]
        exact hr2
    · exact hIds.sublist (List.filter_sublist s.handlers)

/-- Updating a room object in place without changing its membership
preserves the invariant. -/
theorem inv_heap_update (s : Sys) (ref : Nat) (r0 r' : Room) (hInv : Inv s)
    (hr0 : alookup s.heap ref = some r0) (hcl : r'.clients = r0.clients) :
    Inv { s with heap := aset s.heap ref r' } := by
  obtain ⟨hFresh, hRegLt, hRegNE, hRegInj, hUnreg, hHand, hIds⟩ := hInv
  have hheap : ∀ q, alookup (aset s.heap ref r') q =
      if q = ref then some r' else alookup s.heap q := by
    intro q
    by_cases hq : q = ref
    · rw [hq, alookup_aset_self, hr0]
      simp
    · rw [alookup_aset_ne _ _ _ _ hq]
      simp [hq]
  refine ⟨?_, hRegLt, ?_, hRegInj, ?_, ?_, hIds⟩
  · intro q hge
    show alookup (aset s.heap ref r') q = none
    rw [hheap q]
    by_cases hq : q = ref
    · rw [hq] at hge
      rw [hFresh ref hge] at hr0
      cases hr0
    · rw [if_neg hq]
      exact hFresh q hge
  · intro rid q hl
    show ∃ r, alookup (aset s.heap ref r') q = some r ∧ r.clients ≠ []
    rw [hheap q]
    by_cases hq : q = ref
    · rw [if_pos hq]
      refine ⟨r', rfl, ?_⟩
      rw [hcl]
      obtain ⟨rr, hrr, hrrne⟩ := hRegNE rid q hl
      rw [hq, hr0] at hrr
      rw [Option.some.inj hrr]
      exact hrrne
    · rw [if_neg hq]
      exact hRegNE rid q hl
  · intro q r'' hl hunreg
    dsimp only at hl
    rw [hheap q] at hl
    by_cases hq : q = ref
    · rw [if_pos hq] at hl
      rw [← Option.some.inj hl, hcl]
      exact hUnreg q r0 (hq ▸ hr0) hunreg
    · rw [if_neg hq] at hl
      exact hUnreg q r'' hl hunreg
  · intro h2 hmem2
    obtain ⟨hreg2, r2, hr2, hc2⟩ := hHand h2 hmem2
    refine ⟨hreg2, ?_⟩
    show ∃ r, alookup (aset s.heap ref r') h2.roomRef = some r ∧
      h2.conn ∈ r.clients
    rw [hheap h2.roomRef]
    by_cases hq : h2.roomRef = ref
    · rw [if_pos hq]
      refine ⟨r', rfl, ?_⟩
      rw [hcl]
      rw [hq, hr0] at hr2
      rw [Option.some.inj hr2]
      exact hc2
    · rw [if_neg hq]
      exact ⟨r2, hr2, hc2⟩

/-- Every failure-free step preserves the invariant. -/
theorem inv_step (s : Sys) (e : Event) (hInv : Inv s)
    (hOk : eventOk s e = true) (hFF : failureFree e = true) :
    Inv (step s e).1 := by
  cases e with
  | connect roomId user connId =>
    by_cases hmp : missingParams roomId user = true
    · have hstep : (step s (.connect roomId user connId)).1 = s := by
        simp [step, hmp]
      rw [hstep]
      exact hInv
    · have hmp' : missingParams roomId user = false :=
        Bool.eq_false_iff.mpr hmp
      have hfresh : ∀ h2 ∈ s.handlers, h2.conn.id ≠ connId := by
        intro h2 hm2
        simp only [eventOk, List.all_eq_true] at hOk
        have := hOk h2 hm2
        simpa using this
      obtain ⟨hFresh, hRegLt, hRegNE, hRegInj, hUnreg, hHand, hIds⟩ := hInv
      cases hreg : alookup s.registry (roomId.getD "") with
      | some ref =>
        obtain ⟨r0, hr0, hr0ne⟩ := hRegNE (roomId.getD "") ref hreg
        have hRoomRef : heapRoom s ref = r0 := by
          unfold heapRoom
          rw [hr0]
          rfl
        have hstep : (step s (.connect roomId user connId)).1 =
            { s with
                heap := aset s.heap ref
                  ((heapRoom s ref).add_client
                    ⟨connId, user.getD ""⟩)
                handlers := s.handlers ++
                  [⟨⟨connId, user.getD ""⟩, roomId.getD "", ref⟩] } := by
          simp [step, hmp', hreg]
        rw [hstep, hRoomRef]
        have hheap : ∀ q,
            alookup (aset s.heap ref
              (r0.add_client ⟨connId, user.getD ""⟩)) q =
            if q = ref
            then some (r0.add_client ⟨connId, user.getD ""⟩)
            else alookup s.heap q := by
          intro q
          by_cases hq : q = ref
          · rw [hq, alookup_aset_self, hr0]
            simp
          · rw [alookup_aset_ne _ _ _ _ hq]
            simp [hq]
        refine ⟨?_, hRegLt, ?_, hRegInj, ?_, ?_, ?_⟩
        · intro q hge
          show alookup (aset s.heap ref _) q = none
          rw [hheap q]
          by_cases hq : q = ref
          · rw [hq] at hge
            rw [hFresh ref hge] at hr0
            cases hr0
          · rw [if_neg hq]
            exact hFresh q hge
        · intro rid q hl
          show ∃ r, alookup (aset s.heap ref _) q = some r ∧ r.clients ≠ []
          rw [hheap q]
          by_cases hq : q = ref
          · rw [if_pos hq]
            exact ⟨_, rfl, add_client_nonempty r0 _⟩
          · rw [if_neg hq]
            exact hRegNE rid q hl
        · intro q r'' hl hunreg
          dsimp only at hl
          rw [hheap q] at hl
          by_cases hq : q = ref
          · rw [hq] at hunreg
            exact absurd hreg (hunreg (roomId.getD ""))
          · rw [if_neg hq] at hl
            exact hUnreg q r'' hl hunreg
        · intro h2 hmem2
          rcases List.mem_append.mp hmem2 with hm2 | hm2
          · obtain ⟨hreg2, r2, hr2, hc2⟩ := hHand h2 hm2
            refine ⟨hreg2, ?_⟩
            show ∃ r, alookup (aset s.heap ref _) h2.roomRef = some r ∧
              h2.conn ∈ r.clients
            rw [hheap h2.roomRef]
            by_cases hq : h2.roomRef = ref
            · rw [if_pos hq]
              refine ⟨_, rfl, ?_⟩
              rw [hq, hr0] at hr2
              rw [← Option.some.inj hr2] at hc2
              exact mem_add_client_of_mem r0 _ h2.conn hc2
            · rw [if_neg hq]
              exact ⟨r2, hr2, hc2⟩
          · have hh2 : h2 = ⟨⟨connId, user.getD ""⟩, roomId.getD "", ref⟩ :=
              by simpa using hm2
            rw [hh2]
            refine ⟨hreg, ?_⟩
            show ∃ r, alookup (aset s.heap ref _) ref = some r ∧ _
            rw [hheap ref, if_pos rfl]
            exact ⟨_, rfl, mem_add_client_self r0 _⟩
        · show List.Pairwise _ (s.handlers ++ [_])
          rw [List.pairwise_append]
          refine ⟨hIds, List.pairwise_singleton _ _, ?_⟩
          intro a ha b hb
          have hb' : b = ⟨⟨connId, user.getD ""⟩, roomId.getD "", ref⟩ := by
            simpa using hb
          rw [hb']
          exact hfresh a ha
      | none =>
        have hstep : (step s (.connect roomId user connId)).1 =
            { heap := s.heap ++
                [(s.nextRef, Room.start.add_client ⟨connId, user.getD ""⟩)]
              registry := s.registry ++ [(roomId.getD "", s.nextRef)]
              handlers := s.handlers ++
                [⟨⟨connId, user.getD ""⟩, roomId.getD "", s.nextRef⟩]
              nextRef := s.nextRef + 1 } := by
          simp [step, hmp', hreg]
        rw [hstep]
        have hheap : ∀ q, alookup (s.heap ++
            [(s.nextRef, Room.start.add_client ⟨connId, user.getD ""⟩)]) q =
            if q = s.nextRef
            then some (Room.start.add_client ⟨connId, user.getD ""⟩)
            else alookup s.heap q := by
          intro q
          rw [alookup_snoc]
          by_cases hq : q = s.nextRef
          · rw [hq, hFresh s.nextRef (Nat.le_refl _)]
          · rw [if_neg hq]
            cases hq' : alookup s.heap q with
            | some w => rfl
            | none =>
              show (if s.nextRef = q then _ else none) = none
              rw [if_neg (fun he => hq he.symm)]
        have hregN : ∀ rid, alookup (s.registry ++
            [(roomId.getD "", s.nextRef)]) rid =
            if rid = roomId.getD "" then some s.nextRef
            else alookup s.registry rid := by
          intro rid
          rw [alookup_snoc]
          by_cases hr : rid = roomId.getD ""
          · rw [hr, hreg]
          · rw [if_neg hr]
            cases hr' : alookup s.registry rid with
            | some w => rfl
            | none =>
              show (if roomId.getD "" = rid then _ else none) = none
              rw [if_neg (fun he => hr he.symm)]
        refine ⟨?_, ?_, ?_, ?_, ?_, ?_, ?_⟩
        · intro q hge
          show alookup (s.heap ++ _) q = none
          rw [hheap q]
          have hq : ¬q = s.nextRef := by
            intro he
            rw [he] at hge
            exact absurd hge (by simp)
          rw [if_neg hq]
          exact hFresh q (Nat.le_of_succ_le hge)
        · intro rid q hl
          show q < s.nextRef + 1
          rw [hregN rid] at hl
          by_cases hr : rid = roomId.getD ""
          · rw [if_pos hr] at hl
            rw [← Option.some.inj hl]
            exact Nat.lt_succ_self _
          · rw [if_neg hr] at hl
            exact Nat.lt_trans (hRegLt rid q hl) (Nat.lt_succ_self _)
        · intro rid q hl
          show ∃ r, alookup (s.heap ++ _) q = some r ∧ r.clients ≠ []
          rw [hregN rid] at hl
          rw [hheap q]
          by_cases hr : rid = roomId.getD ""
          · rw [if_pos hr] at hl
            rw [← Option.some.inj hl, if_pos rfl]
            exact ⟨_, rfl, add_client_nonempty Room.start _⟩
          · rw [if_neg hr] at hl
            have hq : ¬q = s.nextRef := by
              intro he
              exact absurd (he ▸ hRegLt rid q hl) (Nat.lt_irrefl _)
            rw [if_neg hq]
            exact hRegNE rid q hl
        · intro rid rid' q hl hl'
          rw [hregN rid] at hl
          rw [hregN rid'] at hl'
          by_cases hr : rid = roomId.getD ""
          · by_cases hr' : rid' = roomId.getD ""
            · rw [hr, hr']
            · rw [if_neg hr'] at hl'
              rw [if_pos hr] at hl
              rw [← Option.some.inj hl] at hl'
              exact absurd (hRegLt rid' s.nextRef hl') (Nat.lt_irrefl _)
          · by_cases hr' : rid' = roomId.getD ""
            · rw [if_pos hr'] at hl'
              rw [if_neg hr] at hl
              rw [← Option.some.inj hl'] at hl
              exact absurd (hRegLt rid s.nextRef hl) (Nat.lt_irrefl _)
            · rw [if_neg hr] at hl
              rw [if_neg hr'] at hl'
              exact hRegInj rid rid' q hl hl'
        · intro q r'' hl hunreg
          dsimp only at hl
          rw [hheap q] at hl
          by_cases hq : q = s.nextRef
          · exfalso
            apply hunreg (roomId.getD "")
            show alookup (s.registry ++ _) (roomId.getD "") = some q
            rw [hregN (roomId.getD ""), if_pos rfl, hq]
          · rw [if_neg hq] at hl
            apply hUnreg q r'' hl
            intro rid hc
            apply hunreg rid
            show alookup (s.registry ++ _) rid = some q
            rw [hregN rid]
            by_cases hr : rid = roomId.getD ""
            · rw [hr, hreg] at hc
              cases hc
            · rw [if_neg hr]
              exact hc
        · intro h2 hmem2
          rcases List.mem_append.mp hmem2 with hm2 | hm2
          · obtain ⟨hreg2, r2, hr2, hc2⟩ := hHand h2 hm2
            have hrid2 : ¬h2.roomId = roomId.getD "" := by
              intro he
              rw [he, hreg] at hreg2
              cases hreg2
            have hq2 : ¬h2.roomRef = s.nextRef := by
              intro he
              rw [he, hFresh s.nextRef (Nat.le_refl _)] at hr2
              cases hr2
            constructor
            · show alookup (s.registry ++ _) h2.roomId = some h2.roomRef
              rw [hregN h2.roomId, if_neg hrid2]
              exact hreg2
            · show ∃ r, alookup (s.heap ++ _) h2.roomRef = some r ∧
                h2.conn ∈ r.clients
              rw [hheap h2.roomRef, if_neg hq2]
              exact ⟨r2, hr2, hc2⟩
          · have hh2 : h2 = ⟨⟨connId, user.getD ""⟩, roomId.getD "",
                s.nextRef⟩ := by simpa using hm2
            rw [hh2]
            constructor
            · show alookup (s.registry ++ _) (roomId.getD "") =
                some s.nextRef
              rw [hregN (roomId.getD ""), if_pos rfl]
            · show ∃ r, alookup (s.heap ++ _) s.nextRef = some r ∧ _
              rw [hheap s.nextRef, if_pos rfl]
              exact ⟨_, rfl, mem_add_client_self Room.start _⟩
        · show List.Pairwise _ (s.handlers ++ [_])
          rw [List.pairwise_append]
          refine ⟨hIds, List.pairwise_singleton _ _, ?_⟩
          intro a ha b hb
          have hb' : b = ⟨⟨connId, user.getD ""⟩, roomId.getD "",
              s.nextRef⟩ := by simpa using hb
          rw [hb']
          exact hfresh a ha
  | message connId m fails =>
    cases hh : findHandler s.handlers connId with
    | none =>
      have hstep : (step s (.message connId m fails)).1 = s := by
        simp only [step]
        rw [hh]
      rw [hstep]
      exact hInv
    | some h =>
      have hfails : fails = [] := by
        simp only [failureFree] at hFF
        exact List.isEmpty_iff.mp hFF
      subst hfails
      have hg : ∀ c : Conn, ([] : List Nat).contains c.id = false :=
        fun _ => rfl
      cases hmsg : handle_message h.conn.clientId (heapRoom s h.roomRef) m
          (fun c => ([] : List Nat).contains c.id) with
      | none =>
        have hstep : (step s (.message connId m [])).1 =
            disconnectCleanup s h := by
          simp only [step]
          rw [hh]
          dsimp only
          rw [hmsg]
        rw [hstep]
        exact inv_disconnectCleanup s h hInv
          (List.mem_of_find?_eq_some hh)
      | some pr =>
        obtain ⟨r', sent⟩ := pr
        obtain ⟨r0, hr0, hc0⟩ := (hInv.2.2.2.2.2.1 h
          (List.mem_of_find?_eq_some hh)).2
        have hRoomRef : heapRoom s h.roomRef = r0 := by
          unfold heapRoom
          rw [hr0]
          rfl
        have hcl : r'.clients = r0.clients := by
          have := handle_clients_eq h.conn.clientId (heapRoom s h.roomRef)
            m _ hg r' sent hmsg
          rw [hRoomRef] at this
          exact this
        have hstep : (step s (.message connId m [])).1 =
            { s with heap := aset s.heap h.roomRef r' } := by
          simp only [step]
          rw [hh]
          dsimp only
          rw [hmsg]
        rw [hstep]
        exact inv_heap_update s h.roomRef r0 r' hInv hr0 hcl
  | disconnect connId =>
    cases hh : findHandler s.handlers connId with
    | none =>
      have hstep : (step s (.disconnect connId)).1 = s := by
        simp only [step]
        rw [hh]
      rw [hstep]
      exact hInv
    | some h =>
      have hstep : (step s (.disconnect connId)).1 =
          disconnectCleanup s h := by
        simp only [step]
        rw [hh]
      rw [hstep]
      exact inv_disconnectCleanup s h hInv (List.mem_of_find?_eq_some hh)

theorem inv_of_reachableFF (s : Sys) (hs : ReachableFF s) : Inv s := by
  induction hs with
  | start => exact inv_start
  | step s' e _ hOk hFF ih => exact inv_step s' e ih hOk hFF

/-- C3 amended: as long as no broadcast delivery fails, at every
reachable point a room object is registered if and only if it has at
least one member; a broadcast delivery failure can instead leave an
evicted room's registration dangling until its last handler's `finally`
block runs. -/
theorem C3_registry_iff_nonempty (s : Sys) (hs : ReachableFF s) :
    RegistryIff s := by
  obtain ⟨hFresh, hRegLt, hRegNE, hRegInj, hUnreg, hHand, hIds⟩ :=
    inv_of_reachableFF s hs
  constructor
  · exact hRegNE
  · intro ref r hl hne
    by_contra hnone
    push_neg at hnone
    exact hne (hUnreg ref r hl (fun rid hc => (hnone rid) hc))

/-- Witness for C3 (amended): the invariant holds in the concrete state
reached by alice joining R1 and voting with all deliveries succeeding. -/
theorem C3_witness :
    RegistryIff (step (step Sys.start
      (.connect (some "R1") (some "alice") 0)).1
      (.message 0 (.obj (some "vote") (some "5")) [])).1 :=
  C3_registry_iff_nonempty _
    (ReachableFF.step _ _
      (ReachableFF.step _ _ ReachableFF.start (by decide) (by decide))
      (by decide) (by decide))

end PlanningPoker
